import Mathlib

/-!
Verification development for the kite 2D geometry kernel.

The JavaScript source computes with IEEE doubles; this embedding models the
arithmetic exactly, with rationals for the algebraic fragment (Bezier
segments, path assembly, winding-number hit tests, adaptive flattening) and
with reals for the trigonometric fragment (stroke joins, elliptical arcs,
tangent normalization).  `NaN` results of the source (such as `extremaT`
returning `NaN` when the divisor vanishes) are modelled with `Option`.
-/

namespace Kite

/-- 2D vector, modelling dot's `Vector2` over exact rationals. -/
structure Vec2 where
  x : ℚ
  y : ℚ
  deriving DecidableEq, Repr

namespace Vec2

/-- dot `Vector2.plus`. -/
def plus (a b : Vec2) : Vec2 := ⟨a.x + b.x, a.y + b.y⟩

/-- dot `Vector2.minus`. -/
def minus (a b : Vec2) : Vec2 := ⟨a.x - b.x, a.y - b.y⟩

/-- dot `Vector2.times` (scalar multiple). -/
def times (a : Vec2) (s : ℚ) : Vec2 := ⟨a.x * s, a.y * s⟩

/-- dot `Vector2.dot`. -/
def dot (a b : Vec2) : ℚ := a.x * b.x + a.y * b.y

/-- dot `Vector2.perpendicular`: rotation by -pi/2, `(y, -x)`. -/
def perpendicular (a : Vec2) : Vec2 := ⟨a.y, -a.x⟩

/-- dot `Vector2.negated`. -/
def negated (a : Vec2) : Vec2 := ⟨-a.x, -a.y⟩

/-- dot `Vector2.blend`: linear interpolation `this + (vector - this) * ratio`. -/
def blend (a b : Vec2) (t : ℚ) : Vec2 := a.plus ((b.minus a).times t)

/-- dot `Vector2.distanceSquared`. -/
def distanceSquared (a b : Vec2) : ℚ := (a.x - b.x) ^ 2 + (a.y - b.y) ^ 2

/-- dot `Vector2.equalsEpsilon`: sum of the absolute coordinate
differences, `Math.abs( dx ) + Math.abs( dy ) <= epsilon`. -/
def equalsEpsilon (a b : Vec2) (eps : ℚ) : Bool :=
  |a.x - b.x| + |a.y - b.y| ≤ eps

end Vec2

/-- dot `Bounds2`: axis-aligned bounding box. -/
structure Bounds2 where
  minX : ℚ
  minY : ℚ
  maxX : ℚ
  maxY : ℚ
  deriving DecidableEq, Repr

namespace Bounds2

/-- dot `Bounds2.withPoint`: extend the box to include a point. -/
def withPoint (b : Bounds2) (p : Vec2) : Bounds2 :=
  ⟨min b.minX p.x, min b.minY p.y, max b.maxX p.x, max b.maxY p.y⟩

/-- dot `Bounds2.containsPoint` / `containsCoordinates`. -/
def containsPoint (b : Bounds2) (p : Vec2) : Bool :=
  b.minX ≤ p.x ∧ p.x ≤ b.maxX ∧ b.minY ≤ p.y ∧ p.y ≤ b.maxY

end Bounds2

/-- Quadratic Bezier segment: `Quadratic(start, control, end)` from the
source (`end` is a Lean keyword, hence `end'`). -/
structure Quadratic where
  start : Vec2
  control : Vec2
  end' : Vec2
  deriving DecidableEq, Repr

namespace Quadratic

/-- `Quadratic.extremaT( start, control, end )`: one-dimensional parameter of
the derivative zero.  The source returns `NaN` when the divisor is zero; we
return `none` there. -/
def extremaT (start control end' : ℚ) : Option ℚ :=
  let divisorX := 2 * (end' - 2 * control + start)
  if divisorX ≠ 0 then some (-2 * (control - start) / divisorX) else none

/-- `Quadratic.positionAt( t )`: `(1-t)^2 start + 2(1-t)t control + t^2 end`,
written exactly as the source evaluates it. -/
def positionAt (q : Quadratic) (t : ℚ) : Vec2 :=
  let mt := 1 - t
  ((q.start.times (mt * mt)).plus (q.control.times (2 * mt * t))).plus
    (q.end'.times (t * t))

/-- `Quadratic.getTCriticalX`. -/
def getTCriticalX (q : Quadratic) : Option ℚ :=
  extremaT q.start.x q.control.x q.end'.x

/-- `Quadratic.getTCriticalY`. -/
def getTCriticalY (q : Quadratic) : Option ℚ :=
  extremaT q.start.y q.control.y q.end'.y

/-- One step of `Quadratic.getBounds`: the source's
`if (!isNaN(tCritical) && tCritical > 0 && tCritical < 1) bounds =
bounds.withPoint(positionAt(tCritical))`, applied once per axis. -/
def extendWithCritical (b : Bounds2) (q : Quadratic) (o : Option ℚ) : Bounds2 :=
  match o with
  | some t => if 0 < t ∧ t < 1 then b.withPoint (q.positionAt t) else b
  | none => b

/-- `Quadratic.getBounds`: box of the endpoints, extended by the curve
position at each in-range critical parameter (the source's `!isNaN(t) && t >
0 && t < 1` guard becomes the `Option` match plus the range test). -/
def getBounds (q : Quadratic) : Bounds2 :=
  let b0 : Bounds2 :=
    ⟨min q.start.x q.end'.x, min q.start.y q.end'.y,
      max q.start.x q.end'.x, max q.start.y q.end'.y⟩
  extendWithCritical (extendWithCritical b0 q q.getTCriticalX) q q.getTCriticalY

/-- One-dimensional Bernstein evaluation: the coordinatewise content of
`positionAt`. -/
def f1 (a b c t : ℚ) : ℚ :=
  a * ((1 - t) * (1 - t)) + b * (2 * (1 - t) * t) + c * (t * t)

/-- `Quadratic.subdivided( t )`: de Casteljau split into two quadratics. -/
def subdivided (q : Quadratic) (t : ℚ) : List Quadratic :=
  let leftMid := q.start.blend q.control t
  let rightMid := q.control.blend q.end' t
  let mid := leftMid.blend rightMid t
  [⟨q.start, leftMid, mid⟩, ⟨mid, rightMid, q.end'⟩]

end Quadratic

/-- `kite.Line` as used by `getNondegenerateSegments`: only the two defining
points matter for the returned value. -/
structure Line where
  start : Vec2
  end' : Vec2
  deriving DecidableEq, Repr

/-- dot `Util.arePointsCollinear( a, b, c )` with the default `epsilon = 0`:
the (absolute) triangle area is `<= 0`, i.e. the signed area vanishes. -/
def arePointsCollinear (a b c : Vec2) : Bool :=
  |(b.x - a.x) * (c.y - a.y) - (b.y - a.y) * (c.x - a.x)| / 2 ≤ 0

/-- Result element of `getNondegenerateSegments`: a line or the quadratic
itself. -/
inductive SegResult where
  | line (l : Line)
  | quadratic (q : Quadratic)
  deriving DecidableEq, Repr

namespace Quadratic

/-- `Quadratic.getNondegenerateSegments`.  Notes tying this to the source:
the source computes `endIsControl` from `start.equals( control )` (line 103),
so it coincides with `startIsControl`; and in the collinear branch with a
distinct control point, `delta.normalized` is a method object accessed as a
property, so `p1d` evaluates to `NaN`, `extremaT( 0, p1d, 1 )` returns `NaN`,
and the `!isNaN( t ) && t > 0 && t < 1` guard is always false: that branch
always returns the single line from start to end. -/
def getNondegenerateSegments (q : Quadratic) : List SegResult :=
  let startIsEnd := q.start = q.end'
  let startIsControl := q.start = q.control
  let endIsControl := q.start = q.control
  if startIsEnd ∧ startIsControl then []
  else if startIsEnd then
    let halfPoint := q.positionAt (1/2)
    [.line ⟨q.start, halfPoint⟩, .line ⟨halfPoint, q.end'⟩]
  else if arePointsCollinear q.start q.control q.end' then
    if startIsControl ∨ endIsControl then [.line ⟨q.start, q.end'⟩]
    else [.line ⟨q.start, q.end'⟩]
  else [.quadratic q]

end Quadratic

/-- dot `Ray2`: a position and a (unit) direction. -/
structure Ray2 where
  pos : Vec2
  dir : Vec2
  deriving DecidableEq, Repr

/-- A ray/segment intersection record: `{ distance, point, normal, wind }`. -/
structure Hit where
  distance : ℚ
  point : Vec2
  normal : Vec2
  wind : ℤ
  deriving DecidableEq, Repr

/-- dot `Util.lineLineIntersection( p1, p2, p3, p4 )`: intersection of the two
infinite lines.  When the determinant is zero the source divides by zero and
produces non-finite components (which the caller rejects with `isFinite`); we
return `none` there. -/
def lineLineIntersection (p1 p2 p3 p4 : Vec2) : Option Vec2 :=
  let d := (p1.x - p2.x) * (p3.y - p4.y) - (p1.y - p2.y) * (p3.x - p4.x)
  if d = 0 then none
  else
    let a := p1.x * p2.y - p1.y * p2.x
    let b := p3.x * p4.y - p3.y * p4.x
    some ⟨(a * (p3.x - p4.x) - (p1.x - p2.x) * b) / d,
      (a * (p3.y - p4.y) - (p1.y - p2.y) * b) / d⟩

namespace Line

/-- `Segment.Line`'s degeneracy flag: set when `start.equals( end, 0 )`. -/
def invalid (l : Line) : Bool := l.start = l.end'

/-- `Segment.Line.intersection( ray )`: intersect the infinite lines, reject
non-finite (parallel) results, reject hits outside the half-open extent
`(start, end]` on each varying coordinate, reject hits behind the ray, and
otherwise report distance, point, inward normal and winding sign. -/
def intersection (l : Line) (ray : Ray2) : List Hit :=
  match lineLineIntersection l.start l.end' ray.pos (ray.pos.plus ray.dir) with
  | none => []
  | some inter =>
    if l.start.x ≠ l.end'.x ∧
        (if l.end'.x < l.start.x then l.start.x ≤ inter.x ∨ inter.x < l.end'.x
          else inter.x ≤ l.start.x ∨ l.end'.x < inter.x) then []
    else if l.start.y ≠ l.end'.y ∧
        (if l.end'.y < l.start.y then l.start.y ≤ inter.y ∨ inter.y < l.end'.y
          else inter.y ≤ l.start.y ∨ l.end'.y < inter.y) then []
    else
      let t := (inter.minus ray.pos).dot ray.dir
      if t < 0 then []
      else
        let diff := l.end'.minus l.start
        let perp := diff.perpendicular
        [⟨t, ray.pos.plus (ray.dir.times t),
          if 0 < perp.dot ray.dir then perp.negated else perp,
          if (ray.dir.perpendicular).dot diff < 0 then 1 else -1⟩]

/-- `Segment.Line.windingIntersection( ray )`: the first hit's winding sign,
or 0 when there is no hit. -/
def windingIntersection (l : Line) (ray : Ray2) : ℤ :=
  match l.intersection ray with
  | [] => 0
  | h :: _ => h.wind

end Line

/-- `kite.Subpath`: raw points, filtered drawable segments, closed flag.  The
claims under verification only ever put `Line` segments into subpaths
(`rect` and `lineTo` construct nothing else), so `segments` holds `Line`s. -/
structure Subpath where
  points : List Vec2
  segments : List Line
  closed : Bool
  deriving DecidableEq, Repr

namespace Subpath

/-- `Subpath.addPoint`. -/
def addPoint (sp : Subpath) (p : Vec2) : Subpath :=
  { sp with points := sp.points ++ [p] }

/-- `Subpath.addSegment`: silently drops a segment whose `invalid` flag is
set. -/
def addSegment (sp : Subpath) (l : Line) : Subpath :=
  if l.invalid then sp else { sp with segments := sp.segments ++ [l] }

/-- `Subpath.close`. -/
def close (sp : Subpath) : Subpath := { sp with closed := true }

/-- `Subpath.getFirstPoint` (`_.first`). -/
def getFirstPoint (sp : Subpath) : Option Vec2 := sp.points.head?

/-- `Subpath.getLastPoint` (`_.last`). -/
def getLastPoint (sp : Subpath) : Option Vec2 := sp.points.getLast?

/-- `Subpath.isDrawable`: has at least one segment. -/
def isDrawable (sp : Subpath) : Bool := sp.segments.length > 0

/-- `Subpath.isClosed`. -/
def isClosed (sp : Subpath) : Bool := sp.closed

/-- `Subpath.hasClosingSegment`:
`!getFirstPoint().equalsEpsilon( getLastPoint(), 0.000000001 )`.  Note the
source does not consult the `closed` flag.  On an empty point list the source
would dereference `undefined`; that case is unreachable from the queries,
which only visit drawable subpaths. -/
def hasClosingSegment (sp : Subpath) : Bool :=
  match sp.getFirstPoint, sp.getLastPoint with
  | some f, some l => !(f.equalsEpsilon l (1 / 1000000000))
  | _, _ => false

/-- `Subpath.getClosingSegment`: line from the last point back to the first
(unreachable fallback for an empty point list). -/
def getClosingSegment (sp : Subpath) : Line :=
  match sp.getFirstPoint, sp.getLastPoint with
  | some f, some l => ⟨l, f⟩
  | _, _ => ⟨⟨0, 0⟩, ⟨0, 0⟩⟩

end Subpath


/-- Options for `toPiecewiseLinearSegments`: each epsilon is optional
(`null` in the source disables the criterion), and `pointMap` defaults to the
identity. -/
structure PiecewiseOptions where
  curveEpsilon : Option ℚ
  distanceEpsilon : Option ℚ
  pointMap : Option (Vec2 → Vec2)

/-- dot `Util.distToSegmentSquared( point, a, b )`: squared distance from the
point to the closed segment `[a, b]` (projection parameter clamped to
`[0,1]`). -/
def distToSegmentSquared (point a b : Vec2) : ℚ :=
  let segmentSquaredLength := a.distanceSquared b
  if segmentSquaredLength = 0 then point.distanceSquared a
  else
    let t := ((point.x - a.x) * (b.x - a.x) + (point.y - a.y) * (b.y - a.y)) /
      segmentSquaredLength
    if t < 0 then point.distanceSquared a
    else if 1 < t then point.distanceSquared b
    else point.distanceSquared ⟨a.x + t * (b.x - a.x), a.y + t * (b.y - a.y)⟩

/-- The `curveEpsilon` flatness test of `toPiecewiseLinearSegments`:
midpoint-to-chord squared distance normalized by the squared chord length is
below the threshold; passes vacuously when the option is `null`. -/
def passesCurveEpsilon (opts : PiecewiseOptions) (start end' middle : Vec2) :
    Bool :=
  match opts.curveEpsilon with
  | none => true
  | some ce =>
    distToSegmentSquared middle start end' / start.distanceSquared end' < ce

/-- The `distanceEpsilon` deviation test of `toPiecewiseLinearSegments`:
absolute midpoint-to-chord squared distance below the threshold; passes
vacuously when the option is `null`. -/
def passesDistanceEpsilon (opts : PiecewiseOptions) (start end' middle : Vec2) :
    Bool :=
  match opts.distanceEpsilon with
  | none => true
  | some de => distToSegmentSquared middle start end' < de

/-- `Segment.toPiecewiseLinearSegments`, instantiated at the `Quadratic`
variant present in the source (the base-class logic only uses `start`, `end`,
`positionAt(0.5)` and `subdivided(0.5)`).  `minLevels` may go negative during
recursion (the source checks `minLevels <= 0`); `maxLevels` counts down to
the `maxLevels === 0` bail-out. -/
def toPiecewiseLinearSegments (q : Quadratic) (opts : PiecewiseOptions)
    (minLevels : ℤ) (maxLevels : ℕ) (start end' : Vec2) : List Line :=
  let pointMap := opts.pointMap.getD id
  let middle := pointMap (q.positionAt (1/2))
  if h : maxLevels = 0 ∨ (minLevels ≤ 0 ∧
      passesCurveEpsilon opts start end' middle = true ∧
      passesDistanceEpsilon opts start end' middle = true) then
    [⟨start, end'⟩]
  else
    match q.subdivided (1/2) with
    | [l, r] =>
      toPiecewiseLinearSegments l opts (minLevels - 1) (maxLevels - 1)
        start middle ++
      toPiecewiseLinearSegments r opts (minLevels - 1) (maxLevels - 1)
        middle end'
    | _ => []
termination_by maxLevels
decreasing_by
  all_goals
    have hmz : maxLevels ≠ 0 := fun hz => h (Or.inl hz)
    omega

/-- The stopping condition of C7, phrased as the claim states it: stop iff
`maxLevels` has reached 0, or `minLevels` has reached 0 and both optional
criteria pass (vacuously when the epsilon is null). -/
def pieceSubdivisionStops (q : Quadratic) (opts : PiecewiseOptions)
    (minLevels : ℤ) (maxLevels : ℕ) (start end' : Vec2) : Prop :=
  maxLevels = 0 ∨ (minLevels ≤ 0 ∧
    (∀ ce ∈ opts.curveEpsilon,
      distToSegmentSquared ((opts.pointMap.getD id) (q.positionAt (1/2)))
          start end' / start.distanceSquared end' < ce) ∧
    (∀ de ∈ opts.distanceEpsilon,
      distToSegmentSquared ((opts.pointMap.getD id) (q.positionAt (1/2)))
        start end' < de))

/-- `kite.Shape` state: the subpath list plus the smooth-curve control-point
trackers.  The lazily cached bounds are not part of this fragment (no claim
about `Shape` consults them). -/
structure Shape where
  subpaths : List Subpath
  lastQuadraticControlPoint : Option Vec2
  lastCubicControlPoint : Option Vec2
  deriving DecidableEq, Repr

namespace Shape

/-- `new Shape()` with no arguments. -/
def empty : Shape := ⟨[], none, none⟩

/-- `Shape.resetControlPoints`. -/
def resetControlPoints (s : Shape) : Shape :=
  { s with lastQuadraticControlPoint := none, lastCubicControlPoint := none }

/-- `Shape.hasSubpaths`. -/
def hasSubpaths (s : Shape) : Bool := s.subpaths.length > 0

/-- `Shape.addSubpath` (the invalidation listener only clears the bounds
cache, which is outside this fragment). -/
def addSubpath (s : Shape) (sp : Subpath) : Shape :=
  { s with subpaths := s.subpaths ++ [sp] }

/-- Functional update of `getLastSubpath()`: the source mutates the last
subpath in place. -/
def modifyLastSubpath (s : Shape) (f : Subpath → Subpath) : Shape :=
  { s with subpaths := s.subpaths.dropLast ++
      (match s.subpaths.getLast? with
        | some sp => [f sp]
        | none => []) }

/-- `Shape.addSegmentAndBounds`: adds the segment to the last subpath and
invalidates the (unmodelled) bounds cache. -/
def addSegmentAndBounds (s : Shape) (l : Line) : Shape :=
  s.modifyLastSubpath fun sp => sp.addSegment l

/-- `Shape.ensure( point )`: when there is no subpath yet, start one holding
just the given point. -/
def ensure (s : Shape) (point : Vec2) : Shape :=
  if s.hasSubpaths then s
  else (s.addSubpath ⟨[], [], false⟩).modifyLastSubpath fun sp => sp.addPoint point

/-- `Shape.moveToPoint`. -/
def moveToPoint (s : Shape) (point : Vec2) : Shape :=
  (s.addSubpath (Subpath.addPoint ⟨[], [], false⟩ point)).resetControlPoints

/-- `Shape.lineToPoint`: with a subpath present, build the line from its last
point, append the point and the (validity-filtered) segment; otherwise
`ensure( point )`.  The inner `none` case would dereference `undefined` in
the source (a subpath with no points), unreachable through the public
construction calls. -/
def lineToPoint (s : Shape) (point : Vec2) : Shape :=
  let s1 :=
    if s.hasSubpaths then
      match s.subpaths.getLast? with
      | some sp =>
        match sp.getLastPoint with
        | some start =>
          (s.modifyLastSubpath fun sp => sp.addPoint point).addSegmentAndBounds
            ⟨start, point⟩
        | none => s
      | none => s
    else s.ensure point
  s1.resetControlPoints

/-- `Shape.rect( x, y, width, height )`: fresh subpath with the four corner
points, three explicit edge lines, closed; then a fresh subpath holding the
origin corner. -/
def rect (s : Shape) (x y width height : ℚ) : Shape :=
  let p0 : Vec2 := ⟨x, y⟩
  let p1 : Vec2 := ⟨x + width, y⟩
  let p2 : Vec2 := ⟨x + width, y + height⟩
  let p3 : Vec2 := ⟨x, y + height⟩
  let s1 := (s.addSubpath ⟨[], [], false⟩).modifyLastSubpath fun sp =>
    (((sp.addPoint p0).addPoint p1).addPoint p2).addPoint p3
  let s2 := ((s1.addSegmentAndBounds ⟨p0, p1⟩).addSegmentAndBounds
    ⟨p1, p2⟩).addSegmentAndBounds ⟨p2, p3⟩
  let s3 := (s2.modifyLastSubpath Subpath.close).addSubpath ⟨[], [], false⟩
  (s3.modifyLastSubpath fun sp => sp.addPoint ⟨x, y⟩).resetControlPoints

/-- `Shape.windingIntersection( ray )`: sum over drawable subpaths of each
segment's winding plus the implicit closing segment's winding when
`hasClosingSegment()`. -/
def windingIntersection (s : Shape) (ray : Ray2) : ℤ :=
  (s.subpaths.map fun sp =>
    if sp.isDrawable then
      (sp.segments.map fun seg => seg.windingIntersection ray).sum +
        (if sp.hasClosingSegment then sp.getClosingSegment.windingIntersection ray
          else 0)
    else 0).sum

/-- `Shape.containsPoint( point )`: ray from the point along `Vector2.X_UNIT`,
winding number nonzero. -/
def containsPoint (s : Shape) (point : Vec2) : Bool :=
  s.windingIntersection ⟨point, ⟨1, 0⟩⟩ ≠ 0

end Shape

noncomputable section

/-- 2D vector over the reals, for the trigonometric fragment (stroking,
elliptical arcs). -/
structure RVec2 where
  x : ℝ
  y : ℝ

instance : DecidableEq RVec2 := Classical.decEq _

namespace RVec2

/-- dot `Vector2.plus`. -/
def plus (a b : RVec2) : RVec2 := ⟨a.x + b.x, a.y + b.y⟩

/-- dot `Vector2.minus`. -/
def minus (a b : RVec2) : RVec2 := ⟨a.x - b.x, a.y - b.y⟩

/-- dot `Vector2.times`. -/
def times (a : RVec2) (s : ℝ) : RVec2 := ⟨a.x * s, a.y * s⟩

/-- dot `Vector2.dot`. -/
def dot (a b : RVec2) : ℝ := a.x * b.x + a.y * b.y

/-- dot `Vector2.perpendicular`: `(y, -x)`. -/
def perpendicular (a : RVec2) : RVec2 := ⟨a.y, -a.x⟩

/-- dot `Vector2.negated`. -/
def negated (a : RVec2) : RVec2 := ⟨-a.x, -a.y⟩

/-- dot `Vector2.magnitude`: `sqrt(x^2 + y^2)`. -/
def magnitude (a : RVec2) : ℝ := Real.sqrt (a.x * a.x + a.y * a.y)

/-- dot `Vector2.normalized`: components divided by the magnitude.  The
source throws on a zero vector; Lean's division by zero yields the zero
vector there. -/
def normalized (a : RVec2) : RVec2 := ⟨a.x / a.magnitude, a.y / a.magnitude⟩

/-- dot `Vector2.angle`: `Math.atan2( y, x )`, modelled with the complex
argument of `x + y i`. -/
def angle (a : RVec2) : ℝ := Complex.arg ⟨a.x, a.y⟩

end RVec2

/-- dot `Util.clamp( value, min, max )`. -/
def clamp (value lo hi : ℝ) : ℝ :=
  if value < lo then lo else if hi < value then hi else value

/-- dot `Vector2.angleBetween`: arc-cosine of the clamped dot product of the
normalized vectors. -/
def RVec2.angleBetween (a b : RVec2) : ℝ :=
  Real.arccos (clamp (a.normalized.dot b.normalized) (-1) 1)

/-- dot `Util.lineLineIntersection` over the reals, as used for the miter
tip.  The stroking code does not test finiteness here; a zero determinant
(parallel offset rays, excluded by the miter angle guard) would be
non-finite in the source and is division-by-zero (hence zero) here. -/
def lineLineIntersectionR (p1 p2 p3 p4 : RVec2) : RVec2 :=
  let d := (p1.x - p2.x) * (p3.y - p4.y) - (p1.y - p2.y) * (p3.x - p4.x)
  let a := p1.x * p2.y - p1.y * p2.x
  let b := p3.x * p4.y - p3.y * p4.x
  ⟨(a * (p3.x - p4.x) - (p1.x - p2.x) * b) / d,
    (a * (p3.y - p4.y) - (p1.y - p2.y) * b) / d⟩

/-- `lineCap` values of `kite.LineStyles`. -/
inductive LineCap where
  | butt
  | round
  | square
  deriving DecidableEq

/-- `lineJoin` values of `kite.LineStyles`. -/
inductive LineJoin where
  | miter
  | round
  | bevel
  deriving DecidableEq

/-- `kite.LineStyles` (the informational `lineDash` is unused by the join
and cap math). -/
structure LineStyles where
  lineWidth : ℝ
  lineCap : LineCap
  lineJoin : LineJoin
  miterLimit : ℝ

/-- `kite.Piece`: the drawing commands emitted by the stroker. -/
inductive Piece where
  | moveTo (p : RVec2)
  | lineTo (p : RVec2)
  | arc (center : RVec2) (radius fromAngle toAngle : ℝ) (anticlockwise : Bool)
  | close

/-- The `join( center, fromTangent, toTangent )` helper of
`getStrokedShape`, returning the list of pieces it adds to the output shape.
Join geometry is emitted only on the convex (non-acute) side
(`fromTangent.perpendicular().dot( toTangent ) > 0`); the miter branch falls
back to a bevel unless `1/sin(theta/2) <= miterLimit` and `theta` is not
within `0.00001` of pi. -/
def join (styles : LineStyles) (center fromTangent toTangent : RVec2) :
    List Piece :=
  let fromPoint := center.plus
    ((fromTangent.perpendicular.negated).times (styles.lineWidth / 2))
  let toPoint := center.plus
    ((toTangent.perpendicular.negated).times (styles.lineWidth / 2))
  if 0 < (fromTangent.perpendicular).dot toTangent then
    match styles.lineJoin with
    | .round =>
      let fromAngle := fromTangent.angle + Real.pi / 2
      let toAngle := toTangent.angle + Real.pi / 2
      [.arc center (styles.lineWidth / 2) fromAngle toAngle true]
    | .miter =>
      let theta := fromTangent.angleBetween toTangent.negated
      if 1 / Real.sin (theta / 2) ≤ styles.miterLimit ∧
          theta < Real.pi - 1 / 100000 then
        [.lineTo (lineLineIntersectionR fromPoint (fromPoint.plus fromTangent)
            toPoint (toPoint.plus toTangent)),
          .lineTo toPoint]
      else
        [.lineTo toPoint]
    | .bevel => [.lineTo toPoint]
  else
    if fromPoint ≠ toPoint then [.lineTo toPoint] else []

/-- 2D affine transform (upper two rows of dot's `Matrix3`). -/
structure Affine2 where
  m00 : ℝ
  m01 : ℝ
  m02 : ℝ
  m10 : ℝ
  m11 : ℝ
  m12 : ℝ

namespace Affine2

/-- `Matrix3.translation( x, y )`. -/
def translation (x y : ℝ) : Affine2 := ⟨1, 0, x, 0, 1, y⟩

/-- `Matrix3.rotation2( angle )`. -/
def rotation2 (angle : ℝ) : Affine2 :=
  ⟨Real.cos angle, -Real.sin angle, 0, Real.sin angle, Real.cos angle, 0⟩

/-- `Matrix3.scaling( sx, sy )`. -/
def scaling (sx sy : ℝ) : Affine2 := ⟨sx, 0, 0, 0, sy, 0⟩

/-- `Matrix3.timesMatrix`. -/
def timesMatrix (a b : Affine2) : Affine2 :=
  ⟨a.m00 * b.m00 + a.m01 * b.m10, a.m00 * b.m01 + a.m01 * b.m11,
    a.m00 * b.m02 + a.m01 * b.m12 + a.m02,
    a.m10 * b.m00 + a.m11 * b.m10, a.m10 * b.m01 + a.m11 * b.m11,
    a.m10 * b.m02 + a.m11 * b.m12 + a.m12⟩

/-- `Transform3.transformPosition2`. -/
def transformPosition2 (a : Affine2) (v : RVec2) : RVec2 :=
  ⟨a.m00 * v.x + a.m01 * v.y + a.m02, a.m10 * v.x + a.m11 * v.y + a.m12⟩

/-- Determinant of the linear part. -/
def det (a : Affine2) : ℝ := a.m00 * a.m11 - a.m01 * a.m10

/-- `Transform3.transformNormal2`: the transpose of the inverse linear part
applied to the vector (`getInverse().timesTransposeVector2( v )`). -/
def transformNormal2 (a : Affine2) (v : RVec2) : RVec2 :=
  ⟨(a.m11 / a.det) * v.x + (-a.m10 / a.det) * v.y,
    (-a.m01 / a.det) * v.x + (a.m00 / a.det) * v.y⟩

end Affine2

/-- `Segment.EllipticalArc`'s defining data. -/
structure EllipticalArc where
  center : RVec2
  radiusX : ℝ
  radiusY : ℝ
  rotation : ℝ
  startAngle : ℝ
  endAngle : ℝ
  anticlockwise : Bool

namespace EllipticalArc

/-- `Segment.EllipticalArc.computeUnitTransform`: translation times rotation
times scaling, mapping the unit circle onto the ellipse. -/
def unitTransform (e : EllipticalArc) : Affine2 :=
  (Affine2.translation e.center.x e.center.y).timesMatrix
    ((Affine2.rotation2 e.rotation).timesMatrix
      (Affine2.scaling e.radiusX e.radiusY))

/-- `EllipticalArc.angleAt( t )`: linear sweep from `startAngle` to
`endAngle`, adding or subtracting a full turn according to the orientation
when the raw angles are ordered the other way. -/
def angleAt (e : EllipticalArc) (t : ℝ) : ℝ :=
  if e.anticlockwise then
    if e.endAngle < e.startAngle then
      e.startAngle + (e.endAngle - e.startAngle) * t
    else if e.startAngle < e.endAngle then
      e.startAngle + (-(Real.pi * 2) + e.endAngle - e.startAngle) * t
    else e.startAngle
  else
    if e.startAngle < e.endAngle then
      e.startAngle + (e.endAngle - e.startAngle) * t
    else if e.endAngle < e.startAngle then
      e.startAngle + (Real.pi * 2 + e.endAngle - e.startAngle) * t
    else e.startAngle

/-- `EllipticalArc.positionAtAngle`: the unit transform applied to
`Vector2.createPolar( 1, angle )`. -/
def positionAtAngle (e : EllipticalArc) (angle : ℝ) : RVec2 :=
  e.unitTransform.transformPosition2 ⟨Real.cos angle, Real.sin angle⟩

/-- `EllipticalArc.tangentAtAngle`: perpendicular of the transformed normal,
negated for clockwise sweeps. -/
def tangentAtAngle (e : EllipticalArc) (angle : ℝ) : RVec2 :=
  let normal := e.unitTransform.transformNormal2 ⟨Real.cos angle, Real.sin angle⟩
  if e.anticlockwise then normal.perpendicular else normal.perpendicular.negated

/-- `EllipticalArc.offsetTo( r, reverse )`: `quantity = 32`, and the loop
`for ( var i = 1; i < quantity; i++ )` emits one `Piece.LineTo` per
iteration, at ratio `i / ( quantity - 1 )` (flipped when reversed), each
endpoint being the arc position plus the tangent-perpendicular unit vector
scaled by `r`.  We return the emitted line-to endpoints in order. -/
def offsetTo (e : EllipticalArc) (r : ℝ) (reverse : Bool) : List RVec2 :=
  (List.range 31).map fun j =>
    let i : ℕ := j + 1
    let ratio : ℝ := if reverse then 1 - (i : ℝ) / 31 else (i : ℝ) / 31
    let angle := e.angleAt ratio
    (e.positionAtAngle angle).plus
      (((e.tangentAtAngle angle).perpendicular.normalized).times r)

/-- `EllipticalArc.strokeLeft( lineWidth )`. -/
def strokeLeft (e : EllipticalArc) (lineWidth : ℝ) : List RVec2 :=
  e.offsetTo (-lineWidth / 2) false

/-- `EllipticalArc.strokeRight( lineWidth )`. -/
def strokeRight (e : EllipticalArc) (lineWidth : ℝ) : List RVec2 :=
  e.offsetTo (lineWidth / 2) true

end EllipticalArc

end

noncomputable section

/-- Axis-aligned box over the reals (dot `Bounds2`), for the stateful
`Quadratic` cache model. -/
structure RBounds2 where
  minX : ℝ
  minY : ℝ
  maxX : ℝ
  maxY : ℝ

/-- dot `Bounds2.withPoint` over the reals. -/
def RBounds2.withPoint (b : RBounds2) (p : RVec2) : RBounds2 :=
  ⟨min b.minX p.x, min b.minY p.y, max b.maxX p.x, max b.maxY p.y⟩

/-- `Quadratic.extremaT` over the reals (`NaN` modelled as `none`). -/
def extremaTR (start control end' : ℝ) : Option ℝ :=
  let divisorX := 2 * (end' - 2 * control + start)
  if divisorX ≠ 0 then some (-2 * (control - start) / divisorX) else none

/-- The mutable state of a `Quadratic` instance: the three defining points
plus the lazily-computed caches cleared by `invalidate()` (`null` is `none`;
for the critical parameters the computed-but-`NaN` value is `some none`). -/
structure QuadraticState where
  start : RVec2
  control : RVec2
  end' : RVec2
  cachedStartTangent : Option RVec2
  cachedEndTangent : Option RVec2
  cachedTCriticalX : Option (Option ℝ)
  cachedTCriticalY : Option (Option ℝ)
  cachedBounds : Option RBounds2

namespace QuadraticState

/-- `Quadratic.invalidate`: clear every lazily-computed derived value. -/
def invalidate (s : QuadraticState) : QuadraticState :=
  { s with
    cachedStartTangent := none
    cachedEndTangent := none
    cachedTCriticalX := none
    cachedTCriticalY := none
    cachedBounds := none }

/-- The generated `setStart` (`Segment.addInvalidatingGetterSetter`): update
and invalidate only when the assigned value differs from the stored one (the
source compares with `!==`, i.e. object identity; we compare values). -/
def setStart (s : QuadraticState) (v : RVec2) : QuadraticState :=
  if v = s.start then s else invalidate { s with start := v }

/-- The generated `setControl`. -/
def setControl (s : QuadraticState) (v : RVec2) : QuadraticState :=
  if v = s.control then s else invalidate { s with control := v }

/-- The generated `setEnd`. -/
def setEnd (s : QuadraticState) (v : RVec2) : QuadraticState :=
  if v = s.end' then s else invalidate { s with end' := v }

/-- `Quadratic.positionAt` over the reals. -/
def positionAtR (s : QuadraticState) (t : ℝ) : RVec2 :=
  let mt := 1 - t
  ((s.start.times (mt * mt)).plus (s.control.times (2 * mt * t))).plus
    (s.end'.times (t * t))

/-- The computation inside `getStartTangent` (control = start falls back to
the chord direction). -/
def computeStartTangent (s : QuadraticState) : RVec2 :=
  if s.start = s.control then (s.end'.minus s.start).normalized
  else (s.control.minus s.start).normalized

/-- The computation inside `getEndTangent`. -/
def computeEndTangent (s : QuadraticState) : RVec2 :=
  if s.end' = s.control then (s.end'.minus s.start).normalized
  else (s.end'.minus s.control).normalized

/-- The computation inside `getTCriticalX`. -/
def computeTCriticalX (s : QuadraticState) : Option ℝ :=
  extremaTR s.start.x s.control.x s.end'.x

/-- The computation inside `getTCriticalY`. -/
def computeTCriticalY (s : QuadraticState) : Option ℝ :=
  extremaTR s.start.y s.control.y s.end'.y

/-- One critical-point extension step of the bounds computation. -/
def extendWithCriticalR (b : RBounds2) (s : QuadraticState) (o : Option ℝ) :
    RBounds2 :=
  match o with
  | some t => if 0 < t ∧ t < 1 then b.withPoint (s.positionAtR t) else b
  | none => b

/-- The computation inside `getBounds`: endpoint box extended at the
in-range critical parameters. -/
def computeBounds (s : QuadraticState) : RBounds2 :=
  let b0 : RBounds2 :=
    ⟨min s.start.x s.end'.x, min s.start.y s.end'.y,
      max s.start.x s.end'.x, max s.start.y s.end'.y⟩
  extendWithCriticalR (extendWithCriticalR b0 s (computeTCriticalX s)) s
    (computeTCriticalY s)

/-- `getStartTangent`: serve the cache or compute and store. -/
def getStartTangent (s : QuadraticState) : RVec2 × QuadraticState :=
  match s.cachedStartTangent with
  | some v => (v, s)
  | none =>
    (computeStartTangent s,
      { s with cachedStartTangent := some (computeStartTangent s) })

/-- `getEndTangent`. -/
def getEndTangent (s : QuadraticState) : RVec2 × QuadraticState :=
  match s.cachedEndTangent with
  | some v => (v, s)
  | none =>
    (computeEndTangent s,
      { s with cachedEndTangent := some (computeEndTangent s) })

/-- `getTCriticalX`. -/
def getTCriticalX (s : QuadraticState) : Option ℝ × QuadraticState :=
  match s.cachedTCriticalX with
  | some v => (v, s)
  | none =>
    (computeTCriticalX s,
      { s with cachedTCriticalX := some (computeTCriticalX s) })

/-- `getTCriticalY`. -/
def getTCriticalY (s : QuadraticState) : Option ℝ × QuadraticState :=
  match s.cachedTCriticalY with
  | some v => (v, s)
  | none =>
    (computeTCriticalY s,
      { s with cachedTCriticalY := some (computeTCriticalY s) })

/-- `getBounds`: serve the cache, or read the critical parameters through
their own caching getters, extend the endpoint box, and store. -/
def getBounds (s : QuadraticState) : RBounds2 × QuadraticState :=
  match s.cachedBounds with
  | some b => (b, s)
  | none =>
    let txs := getTCriticalX s
    let tys := getTCriticalY txs.2
    let b0 : RBounds2 :=
      ⟨min s.start.x s.end'.x, min s.start.y s.end'.y,
        max s.start.x s.end'.x, max s.start.y s.end'.y⟩
    let b2 := extendWithCriticalR (extendWithCriticalR b0 s txs.1) s tys.1
    (b2, { tys.2 with cachedBounds := some b2 })

end QuadraticState

end

namespace Quadratic

lemma positionAt_x (q : Quadratic) (t : ℚ) :
    (q.positionAt t).x = f1 q.start.x q.control.x q.end'.x t := rfl

lemma positionAt_y (q : Quadratic) (t : ℚ) :
    (q.positionAt t).y = f1 q.start.y q.control.y q.end'.y t := rfl

lemma extremaT_some (a b c tc : ℚ) (h : extremaT a b c = some tc) :
    c - 2 * b + a ≠ 0 ∧ tc = -2 * (b - a) / (2 * (c - 2 * b + a)) := by
  by_cases hz : 2 * (c - 2 * b + a) = 0
  · simp only [extremaT] at h
    rw [if_neg (not_not_intro hz)] at h
    exact absurd h (by simp)
  · simp only [extremaT] at h
    rw [if_pos hz] at h
    refine ⟨fun hc => hz (by rw [hc]; ring), (Option.some_injective _ h).symm⟩

lemma extremaT_none (a b c : ℚ) (h : extremaT a b c = none) :
    c - 2 * b + a = 0 := by
  by_cases hz : 2 * (c - 2 * b + a) = 0
  · linarith
  · simp only [extremaT] at h
    rw [if_pos hz] at h
    exact absurd h (by simp)

/-- When the quadratic coefficient vanishes, the Bernstein polynomial is the
linear interpolation between the endpoints, hence between them on `[0,1]`. -/
lemma f1_between_of_linear (a b c t : ℚ) (hD : c - 2 * b + a = 0)
    (h0 : 0 ≤ t) (h1 : t ≤ 1) :
    min a c ≤ f1 a b c t ∧ f1 a b c t ≤ max a c := by
  have key : f1 a b c t = a + (c - a) * t := by
    simp only [f1]
    linear_combination (t ^ 2 - t) * hD
  rcases le_total a c with h | h
  · rw [min_eq_left h, max_eq_right h]
    constructor <;> nlinarith
  · rw [min_eq_right h, max_eq_left h]
    constructor <;> nlinarith

/-- With a genuine parabola whose vertex parameter lies outside `(0,1)`, the
values on `[0,1]` stay between the endpoint values. -/
lemma f1_between_of_out (a b c tc t : ℚ) (hD : c - 2 * b + a ≠ 0)
    (htc : tc = -2 * (b - a) / (2 * (c - 2 * b + a)))
    (hout : tc ≤ 0 ∨ 1 ≤ tc) (h0 : 0 ≤ t) (h1 : t ≤ 1) :
    min a c ≤ f1 a b c t ∧ f1 a b c t ≤ max a c := by
  have id0 : f1 a b c t - a = (c - 2 * b + a) * (t * (t - 2 * tc)) := by
    subst htc; simp only [f1]; field_simp; ring
  have id1 : f1 a b c t - c =
      (c - 2 * b + a) * ((t - 1) * (t + 1 - 2 * tc)) := by
    subst htc; simp only [f1]; field_simp; ring
  rcases lt_or_gt_of_ne hD with hneg | hpos <;> rcases hout with hlo | hhi
  · -- D < 0, tc ≤ 0: decreasing on [0,1], c ≤ f1 t ≤ a
    have hq0 : 0 ≤ t * (t - 2 * tc) := mul_nonneg h0 (by linarith)
    have hq1 : (t - 1) * (t + 1 - 2 * tc) ≤ 0 :=
      mul_nonpos_of_nonpos_of_nonneg (by linarith) (by linarith)
    constructor
    · refine le_trans (min_le_right a c) ?_
      nlinarith
    · refine le_trans ?_ (le_max_left a c)
      nlinarith
  · -- D < 0, 1 ≤ tc: increasing on [0,1], a ≤ f1 t ≤ c
    have hq0 : t * (t - 2 * tc) ≤ 0 :=
      mul_nonpos_of_nonneg_of_nonpos h0 (by linarith)
    have hq1 : 0 ≤ (t - 1) * (t + 1 - 2 * tc) :=
      mul_nonneg_iff.mpr (Or.inr ⟨by linarith, by linarith⟩)
    constructor
    · refine le_trans (min_le_left a c) ?_
      nlinarith
    · refine le_trans ?_ (le_max_right a c)
      nlinarith
  · -- D > 0, tc ≤ 0: increasing on [0,1], a ≤ f1 t ≤ c
    have hq0 : 0 ≤ t * (t - 2 * tc) := mul_nonneg h0 (by linarith)
    have hq1 : (t - 1) * (t + 1 - 2 * tc) ≤ 0 :=
      mul_nonpos_of_nonpos_of_nonneg (by linarith) (by linarith)
    constructor
    · refine le_trans (min_le_left a c) ?_
      nlinarith
    · refine le_trans ?_ (le_max_right a c)
      nlinarith
  · -- D > 0, 1 ≤ tc: decreasing on [0,1], c ≤ f1 t ≤ a
    have hq0 : t * (t - 2 * tc) ≤ 0 :=
      mul_nonpos_of_nonneg_of_nonpos h0 (by linarith)
    have hq1 : 0 ≤ (t - 1) * (t + 1 - 2 * tc) :=
      mul_nonneg_iff.mpr (Or.inr ⟨by linarith, by linarith⟩)
    constructor
    · refine le_trans (min_le_right a c) ?_
      nlinarith
    · refine le_trans ?_ (le_max_left a c)
      nlinarith

/-- With the vertex parameter inside `(0,1)`, the values on `[0,1]` stay
between the endpoint values extended with the vertex value. -/
lemma f1_between_of_in (a b c tc t : ℚ) (hD : c - 2 * b + a ≠ 0)
    (htc : tc = -2 * (b - a) / (2 * (c - 2 * b + a)))
    (h0c : 0 < tc) (h1c : tc < 1) (h0 : 0 ≤ t) (h1 : t ≤ 1) :
    min (min a c) (f1 a b c tc) ≤ f1 a b c t ∧
    f1 a b c t ≤ max (max a c) (f1 a b c tc) := by
  have id0 : f1 a b c t - a = (c - 2 * b + a) * (t * (t - 2 * tc)) := by
    subst htc; simp only [f1]; field_simp; ring
  have id1 : f1 a b c t - c =
      (c - 2 * b + a) * ((t - 1) * (t + 1 - 2 * tc)) := by
    subst htc; simp only [f1]; field_simp; ring
  have idc : f1 a b c t - f1 a b c tc = (c - 2 * b + a) * ((t - tc) ^ 2) := by
    subst htc; simp only [f1]; field_simp; ring
  rcases lt_or_gt_of_ne hD with hneg | hpos
  · -- D < 0: concave; minimum at an endpoint, maximum at the vertex
    constructor
    · rcases le_total t tc with htv | htv
      · have hq0 : t * (t - 2 * tc) ≤ 0 :=
          mul_nonpos_of_nonneg_of_nonpos h0 (by linarith)
        refine le_trans (min_le_left _ _) (le_trans (min_le_left a c) ?_)
        nlinarith
      · have hq1 : (t - 1) * (t + 1 - 2 * tc) ≤ 0 :=
          mul_nonpos_of_nonpos_of_nonneg (by linarith) (by linarith)
        refine le_trans (min_le_left _ _) (le_trans (min_le_right a c) ?_)
        nlinarith
    · refine le_trans ?_ (le_max_right _ _)
      nlinarith [sq_nonneg (t - tc)]
  · -- D > 0: convex; minimum at the vertex, maximum at an endpoint
    constructor
    · refine le_trans (min_le_right _ _) ?_
      nlinarith [sq_nonneg (t - tc)]
    · rcases le_total t tc with htv | htv
      · have hq0 : t * (t - 2 * tc) ≤ 0 :=
          mul_nonpos_of_nonneg_of_nonpos h0 (by linarith)
        refine le_trans ?_ (le_trans (le_max_left a c) (le_max_left _ _))
        nlinarith
      · have hq1 : (t - 1) * (t + 1 - 2 * tc) ≤ 0 :=
          mul_nonpos_of_nonpos_of_nonneg (by linarith) (by linarith)
        refine le_trans ?_ (le_trans (le_max_right a c) (le_max_left _ _))
        nlinarith

/-- `extendWithCritical` only enlarges the box. -/
lemma extendWithCritical_mono (b : Bounds2) (q : Quadratic) (o : Option ℚ) :
    (extendWithCritical b q o).minX ≤ b.minX ∧
    b.maxX ≤ (extendWithCritical b q o).maxX ∧
    (extendWithCritical b q o).minY ≤ b.minY ∧
    b.maxY ≤ (extendWithCritical b q o).maxY := by
  rcases o with _ | t
  · simp [extendWithCritical]
  · by_cases h : 0 < t ∧ t < 1 <;>
      simp [extendWithCritical, h, Bounds2.withPoint, min_le_left, le_max_left]

/-- The x-axis critical-point extension captures the whole x-range of the
curve on `[0,1]`, starting from any box already spanning the endpoints. -/
lemma extend_x_bounds (q : Quadratic) (t : ℚ) (h0 : 0 ≤ t) (h1 : t ≤ 1)
    (b : Bounds2) (hbmin : b.minX ≤ min q.start.x q.end'.x)
    (hbmax : max q.start.x q.end'.x ≤ b.maxX) :
    (extendWithCritical b q q.getTCriticalX).minX ≤
      f1 q.start.x q.control.x q.end'.x t ∧
    f1 q.start.x q.control.x q.end'.x t ≤
      (extendWithCritical b q q.getTCriticalX).maxX := by
  rcases hX : q.getTCriticalX with _ | tx
  · have hD := extremaT_none _ _ _ hX
    obtain ⟨hlo, hhi⟩ := f1_between_of_linear q.start.x q.control.x q.end'.x t hD h0 h1
    simp only [extendWithCritical]
    exact ⟨le_trans hbmin hlo, le_trans hhi hbmax⟩
  · obtain ⟨hD, htc⟩ := extremaT_some _ _ _ _ hX
    by_cases hin : 0 < tx ∧ tx < 1
    · obtain ⟨hlo, hhi⟩ := f1_between_of_in q.start.x q.control.x q.end'.x tx t
        hD htc hin.1 hin.2 h0 h1
      simp only [extendWithCritical, hin, if_true, Bounds2.withPoint]
      rw [positionAt_x]
      constructor
      · exact le_trans (min_le_min hbmin le_rfl) hlo
      · exact le_trans hhi (max_le_max hbmax le_rfl)
    · have hout : tx ≤ 0 ∨ 1 ≤ tx := by
        rcases not_and_or.mp hin with h | h
        · exact Or.inl (le_of_not_lt h)
        · exact Or.inr (le_of_not_lt h)
      obtain ⟨hlo, hhi⟩ := f1_between_of_out q.start.x q.control.x q.end'.x tx t
        hD htc hout h0 h1
      simp only [extendWithCritical, hin, if_false]
      exact ⟨le_trans hbmin hlo, le_trans hhi hbmax⟩

/-- The y-axis critical-point extension captures the whole y-range of the
curve on `[0,1]`, starting from any box already spanning the endpoints. -/
lemma extend_y_bounds (q : Quadratic) (t : ℚ) (h0 : 0 ≤ t) (h1 : t ≤ 1)
    (b : Bounds2) (hbmin : b.minY ≤ min q.start.y q.end'.y)
    (hbmax : max q.start.y q.end'.y ≤ b.maxY) :
    (extendWithCritical b q q.getTCriticalY).minY ≤
      f1 q.start.y q.control.y q.end'.y t ∧
    f1 q.start.y q.control.y q.end'.y t ≤
      (extendWithCritical b q q.getTCriticalY).maxY := by
  rcases hY : q.getTCriticalY with _ | ty
  · have hD := extremaT_none _ _ _ hY
    obtain ⟨hlo, hhi⟩ := f1_between_of_linear q.start.y q.control.y q.end'.y t hD h0 h1
    simp only [extendWithCritical]
    exact ⟨le_trans hbmin hlo, le_trans hhi hbmax⟩
  · obtain ⟨hD, htc⟩ := extremaT_some _ _ _ _ hY
    by_cases hin : 0 < ty ∧ ty < 1
    · obtain ⟨hlo, hhi⟩ := f1_between_of_in q.start.y q.control.y q.end'.y ty t
        hD htc hin.1 hin.2 h0 h1
      simp only [extendWithCritical, hin, if_true, Bounds2.withPoint]
      rw [positionAt_y]
      constructor
      · exact le_trans (min_le_min hbmin le_rfl) hlo
      · exact le_trans hhi (max_le_max hbmax le_rfl)
    · have hout : ty ≤ 0 ∨ 1 ≤ ty := by
        rcases not_and_or.mp hin with h | h
        · exact Or.inl (le_of_not_lt h)
        · exact Or.inr (le_of_not_lt h)
      obtain ⟨hlo, hhi⟩ := f1_between_of_out q.start.y q.control.y q.end'.y ty t
        hD htc hout h0 h1
      simp only [extendWithCritical, hin, if_false]
      exact ⟨le_trans hbmin hlo, le_trans hhi hbmax⟩

end Quadratic

/-- C2: for every Quadratic segment and every `t` in `[0,1]`, the bounding
box computed by `getBounds` contains `positionAt(t)`; in particular it
contains `positionAt(0)`, `positionAt(1)` and the position at every interior
parametric extremum. -/
theorem quadratic_getBounds_contains_positionAt (q : Quadratic) (t : ℚ)
    (h0 : 0 ≤ t) (h1 : t ≤ 1) :
    q.getBounds.containsPoint (q.positionAt t) = true := by
  classical
  set b0 : Bounds2 :=
    ⟨min q.start.x q.end'.x, min q.start.y q.end'.y,
      max q.start.x q.end'.x, max q.start.y q.end'.y⟩ with hb0
  set b1 : Bounds2 := Quadratic.extendWithCritical b0 q q.getTCriticalX with hb1
  have hgb : q.getBounds = Quadratic.extendWithCritical b1 q q.getTCriticalY := rfl
  obtain ⟨hx1, hx2⟩ := Quadratic.extend_x_bounds q t h0 h1 b0 le_rfl le_rfl
  obtain ⟨m1, m2, m3, m4⟩ := Quadratic.extendWithCritical_mono b0 q q.getTCriticalX
  obtain ⟨hy1, hy2⟩ := Quadratic.extend_y_bounds q t h0 h1 b1
    (le_trans m3 le_rfl) (le_trans le_rfl m4)
  obtain ⟨n1, n2, n3, n4⟩ := Quadratic.extendWithCritical_mono b1 q q.getTCriticalY
  rw [hgb]
  simp only [Bounds2.containsPoint, Quadratic.positionAt_x, Quadratic.positionAt_y,
    decide_eq_true_eq]
  refine ⟨le_trans n1 hx1, le_trans hx2 n2, hy1, hy2⟩

/-- Witness for C2 at a concrete quadratic and `t = 1/3`. -/
theorem quadratic_getBounds_contains_positionAt_witness :
    (0 : ℚ) ≤ 1/3 ∧ (1/3 : ℚ) ≤ 1 ∧
    ((Quadratic.mk ⟨0, 0⟩ ⟨2, 3⟩ ⟨1, -1⟩).getBounds.containsPoint
      ((Quadratic.mk ⟨0, 0⟩ ⟨2, 3⟩ ⟨1, -1⟩).positionAt (1/3)) = true) :=
  ⟨by norm_num, by norm_num,
    quadratic_getBounds_contains_positionAt ⟨⟨0, 0⟩, ⟨2, 3⟩, ⟨1, -1⟩⟩ (1/3)
      (by norm_num) (by norm_num)⟩

/-- C3: for every Quadratic segment and t in (0,1), `subdivided(t)` returns
exactly two segments of the same family covering `[0,t]` and `[t,1]`: the
left piece reparameterizes the parent on `[0,t]`, the right piece on
`[t,1]`, and `subdivided(t)[0].positionAt(1) = subdivided(t)[1].positionAt(0)
= positionAt(t)`. -/
theorem quadratic_subdivided_covers (q : Quadratic) (t : ℚ)
    (h0 : 0 < t) (h1 : t < 1) :
    (q.subdivided t).length = 2 ∧
    ∃ left right, q.subdivided t = [left, right] ∧
      left.positionAt 1 = q.positionAt t ∧
      right.positionAt 0 = q.positionAt t ∧
      (∀ s : ℚ, left.positionAt s = q.positionAt (s * t)) ∧
      (∀ s : ℚ, right.positionAt s = q.positionAt (t + s * (1 - t))) := by
  refine ⟨rfl, _, _, rfl, ?_, ?_, ?_, ?_⟩
  · simp only [Quadratic.positionAt, Vec2.plus, Vec2.minus, Vec2.times,
      Vec2.blend, Quadratic.subdivided, Vec2.mk.injEq]
    constructor <;> ring
  · simp only [Quadratic.positionAt, Vec2.plus, Vec2.minus, Vec2.times,
      Vec2.blend, Quadratic.subdivided, Vec2.mk.injEq]
    constructor <;> ring
  · intro s
    simp only [Quadratic.positionAt, Vec2.plus, Vec2.minus, Vec2.times,
      Vec2.blend, Quadratic.subdivided, Vec2.mk.injEq]
    constructor <;> ring
  · intro s
    simp only [Quadratic.positionAt, Vec2.plus, Vec2.minus, Vec2.times,
      Vec2.blend, Quadratic.subdivided, Vec2.mk.injEq]
    constructor <;> ring

/-- C4: `getNondegenerateSegments` returns `[]` when all three points
coincide; a single line from `p` to `q` for `Quadratic(p, p, q)` with
`p ≠ q`; two lines through the curve's farthest point when start = end but
the control differs; and `[this]` for non-collinear defining points. -/
theorem quadratic_getNondegenerateSegments_cases :
    (∀ p : Vec2, (Quadratic.mk p p p).getNondegenerateSegments = []) ∧
    (∀ p q : Vec2, p ≠ q →
      (Quadratic.mk p p q).getNondegenerateSegments = [.line ⟨p, q⟩]) ∧
    (∀ p c : Vec2, c ≠ p →
      (Quadratic.mk p c p).getNondegenerateSegments =
        [.line ⟨p, (Quadratic.mk p c p).positionAt (1/2)⟩,
          .line ⟨(Quadratic.mk p c p).positionAt (1/2), p⟩] ∧
      (∀ t : ℚ, 0 ≤ t → t ≤ 1 →
        Vec2.distanceSquared p ((Quadratic.mk p c p).positionAt t) ≤
          Vec2.distanceSquared p ((Quadratic.mk p c p).positionAt (1/2)))) ∧
    (∀ q : Quadratic, arePointsCollinear q.start q.control q.end' = false →
      q.getNondegenerateSegments = [.quadratic q]) := by
  refine ⟨?_, ?_, ?_, ?_⟩
  · intro p
    simp [Quadratic.getNondegenerateSegments]
  · intro p q hpq
    have hcol : arePointsCollinear p p q = true := by
      simp [arePointsCollinear]
    simp [Quadratic.getNondegenerateSegments, hpq, hcol]
  · intro p c hcp
    constructor
    · have hne : p ≠ c := fun h => hcp h.symm
      simp [Quadratic.getNondegenerateSegments, hne]
    · intro t h0 h1
      have haux : (2 * t * (1 - t)) ^ 2 ≤ (1 / 2 : ℚ) ^ 2 := by
        nlinarith [sq_nonneg (2 * t - 1), mul_nonneg h0 (sub_nonneg.mpr h1)]
      simp only [Vec2.distanceSquared, Quadratic.positionAt, Vec2.plus,
        Vec2.times]
      nlinarith [mul_le_mul_of_nonneg_right haux (sq_nonneg (c.x - p.x)),
        mul_le_mul_of_nonneg_right haux (sq_nonneg (c.y - p.y))]
  · intro q hncol
    have hse : q.start ≠ q.end' := by
      intro h
      have hc : arePointsCollinear q.start q.control q.end' = true := by
        simp only [arePointsCollinear, ← h, sub_self, mul_zero, abs_zero,
          zero_sub, neg_zero, zero_div]
        norm_num
      rw [hc] at hncol
      exact absurd hncol (by simp)
    simp [Quadratic.getNondegenerateSegments, hse, hncol]

/-- Witness for C4, instantiating each case at concrete points. -/
theorem quadratic_getNondegenerateSegments_cases_witness :
    ((Quadratic.mk ⟨0, 0⟩ ⟨0, 0⟩ ⟨0, 0⟩).getNondegenerateSegments = []) ∧
    ((Quadratic.mk ⟨0, 0⟩ ⟨0, 0⟩ ⟨1, 0⟩).getNondegenerateSegments =
      [.line ⟨⟨0, 0⟩, ⟨1, 0⟩⟩]) ∧
    ((Quadratic.mk ⟨0, 0⟩ ⟨2, 2⟩ ⟨0, 0⟩).getNondegenerateSegments =
      [.line ⟨⟨0, 0⟩, (Quadratic.mk ⟨0, 0⟩ ⟨2, 2⟩ ⟨0, 0⟩).positionAt (1/2)⟩,
        .line ⟨(Quadratic.mk ⟨0, 0⟩ ⟨2, 2⟩ ⟨0, 0⟩).positionAt (1/2), ⟨0, 0⟩⟩]) ∧
    ((Quadratic.mk ⟨0, 0⟩ ⟨1, 1⟩ ⟨2, 0⟩).getNondegenerateSegments =
      [.quadratic (Quadratic.mk ⟨0, 0⟩ ⟨1, 1⟩ ⟨2, 0⟩)]) :=
  ⟨quadratic_getNondegenerateSegments_cases.1 ⟨0, 0⟩,
    quadratic_getNondegenerateSegments_cases.2.1 ⟨0, 0⟩ ⟨1, 0⟩
      (by simp [Vec2.mk.injEq]),
    (quadratic_getNondegenerateSegments_cases.2.2.1 ⟨0, 0⟩ ⟨2, 2⟩
      (by simp [Vec2.mk.injEq])).1,
    quadratic_getNondegenerateSegments_cases.2.2.2 ⟨⟨0, 0⟩, ⟨1, 1⟩, ⟨2, 0⟩⟩
      (by simp [arePointsCollinear])⟩

/-- Witness for C3 at a concrete quadratic and `t = 1/2`. -/
theorem quadratic_subdivided_covers_witness :
    (0 : ℚ) < 1/2 ∧ (1/2 : ℚ) < 1 ∧
    ((Quadratic.mk ⟨0, 0⟩ ⟨1, 2⟩ ⟨3, 0⟩).subdivided (1/2)).length = 2 :=
  ⟨by norm_num, by norm_num,
    (quadratic_subdivided_covers ⟨⟨0, 0⟩, ⟨1, 2⟩, ⟨3, 0⟩⟩ (1/2)
      (by norm_num) (by norm_num)).1⟩

/-- C1: for the unit-square Shape built by `rect(0,0,1,1)`,
`containsPoint((0.5,0.5))` is true and `containsPoint((2,2))` is false;
`containsPoint` casts a ray from the point in the +x direction and is true
iff the shape's `windingIntersection` over that ray is nonzero. -/
theorem shape_rect_containsPoint_unit_square :
    (∀ (s : Shape) (p : Vec2),
      s.containsPoint p = true ↔ s.windingIntersection ⟨p, ⟨1, 0⟩⟩ ≠ 0) ∧
    (Shape.empty.rect 0 0 1 1).containsPoint ⟨1/2, 1/2⟩ = true ∧
    (Shape.empty.rect 0 0 1 1).containsPoint ⟨2, 2⟩ = false := by
  refine ⟨fun s p => by simp [Shape.containsPoint], ?_, ?_⟩ <;>
    norm_num [Shape.containsPoint, Shape.windingIntersection, Shape.rect,
      Shape.empty, Shape.addSubpath, Shape.modifyLastSubpath,
      Shape.addSegmentAndBounds, Shape.resetControlPoints,
      Subpath.addPoint, Subpath.addSegment, Subpath.close,
      Subpath.isDrawable, Subpath.hasClosingSegment,
      Subpath.getClosingSegment, Subpath.getFirstPoint, Subpath.getLastPoint,
      Line.invalid, Line.intersection, Line.windingIntersection,
      lineLineIntersection, Vec2.plus, Vec2.minus, Vec2.times,
      Vec2.dot, Vec2.perpendicular, Vec2.negated, Vec2.equalsEpsilon]

/-- C5 counterexample: an open subpath (closed flag not set) whose endpoints
differ still reports `hasClosingSegment() = true`; the source never consults
the closed flag. -/
theorem subpath_hasClosingSegment_open_counterexample :
    (Subpath.mk [⟨0, 0⟩, ⟨1, 0⟩] [⟨⟨0, 0⟩, ⟨1, 0⟩⟩] false).isClosed = false ∧
    (Subpath.mk [⟨0, 0⟩, ⟨1, 0⟩] [⟨⟨0, 0⟩, ⟨1, 0⟩⟩] false).hasClosingSegment
      = true := by
  refine ⟨rfl, ?_⟩
  norm_num [Subpath.hasClosingSegment, Subpath.getFirstPoint,
    Subpath.getLastPoint, Vec2.equalsEpsilon]

/-- C5 (amended): for every Subpath with at least one point,
`hasClosingSegment()` returns true iff the last point differs from the first
point by more than `1e-9` in the sum of the absolute coordinate differences
— regardless of whether the subpath's closed flag is set. -/
theorem subpath_hasClosingSegment_iff (sp : Subpath) (f l : Vec2)
    (hf : sp.getFirstPoint = some f) (hl : sp.getLastPoint = some l) :
    sp.hasClosingSegment = true ↔
      1 / 1000000000 < |f.x - l.x| + |f.y - l.y| := by
  simp [Subpath.hasClosingSegment, hf, hl, Vec2.equalsEpsilon, not_le]

/-- Witness for C5's amended theorem on a concrete two-point subpath. -/
theorem subpath_hasClosingSegment_iff_witness :
    (Subpath.mk [⟨0, 0⟩, ⟨1, 0⟩] [] false).getFirstPoint = some ⟨0, 0⟩ ∧
    (Subpath.mk [⟨0, 0⟩, ⟨1, 0⟩] [] false).getLastPoint = some ⟨1, 0⟩ ∧
    ((Subpath.mk [⟨0, 0⟩, ⟨1, 0⟩] [] false).hasClosingSegment = true ↔
      1 / 1000000000 < |(0 : ℚ) - 1| + |(0 : ℚ) - 0|) :=
  ⟨rfl, rfl, subpath_hasClosingSegment_iff _ ⟨0, 0⟩ ⟨1, 0⟩ rfl rfl⟩

/-- C9: `lineToPoint` on a Shape with no subpaths creates no segment: it
creates a single Subpath holding only the given point, every subpath of the
result is non-drawable, and the point becomes the start of a subsequent
drawing call (a following `lineToPoint(q)` produces the line from `p` to
`q`). -/
theorem shape_lineToPoint_empty (s : Shape) (p q : Vec2)
    (h : s.subpaths = []) :
    (s.lineToPoint p).subpaths = [⟨[p], [], false⟩] ∧
    (∀ sp ∈ (s.lineToPoint p).subpaths, sp.isDrawable = false) ∧
    (p ≠ q →
      ((s.lineToPoint p).lineToPoint q).subpaths =
        [⟨[p, q], [⟨p, q⟩], false⟩]) := by
  have h2 : s.lineToPoint p = ⟨[⟨[p], [], false⟩], none, none⟩ := by
    simp [Shape.lineToPoint, Shape.hasSubpaths, h, Shape.ensure,
      Shape.addSubpath, Shape.modifyLastSubpath, Subpath.addPoint,
      Shape.resetControlPoints]
  refine ⟨by rw [h2], ?_, ?_⟩
  · intro sp hsp
    rw [h2] at hsp
    simp only [List.mem_singleton] at hsp
    subst hsp
    rfl
  · intro hpq
    rw [h2]
    simp [Shape.lineToPoint, Shape.hasSubpaths, Shape.ensure,
      Shape.addSubpath, Shape.modifyLastSubpath, Subpath.addPoint,
      Subpath.getLastPoint, Shape.resetControlPoints,
      Shape.addSegmentAndBounds, Subpath.addSegment, Line.invalid, hpq]

/-- Witness for C9 on the empty shape. -/
theorem shape_lineToPoint_empty_witness :
    Shape.empty.subpaths = [] ∧
    (Shape.empty.lineToPoint ⟨0, 0⟩).subpaths = [⟨[⟨0, 0⟩], [], false⟩] ∧
    ((Shape.empty.lineToPoint ⟨0, 0⟩).lineToPoint ⟨1, 1⟩).subpaths =
      [⟨[⟨0, 0⟩, ⟨1, 1⟩], [⟨⟨0, 0⟩, ⟨1, 1⟩⟩], false⟩] :=
  ⟨rfl, (shape_lineToPoint_empty Shape.empty ⟨0, 0⟩ ⟨1, 1⟩ rfl).1,
    (shape_lineToPoint_empty Shape.empty ⟨0, 0⟩ ⟨1, 1⟩ rfl).2.2
      (by simp [Vec2.mk.injEq])⟩

lemma passesCurveEpsilon_iff (opts : PiecewiseOptions) (start end' middle : Vec2) :
    passesCurveEpsilon opts start end' middle = true ↔
      ∀ ce ∈ opts.curveEpsilon,
        distToSegmentSquared middle start end' / start.distanceSquared end' <
          ce := by
  rcases h : opts.curveEpsilon with _ | ce <;> simp [passesCurveEpsilon, h]

lemma passesDistanceEpsilon_iff (opts : PiecewiseOptions)
    (start end' middle : Vec2) :
    passesDistanceEpsilon opts start end' middle = true ↔
      ∀ de ∈ opts.distanceEpsilon,
        distToSegmentSquared middle start end' < de := by
  rcases h : opts.distanceEpsilon with _ | de <;> simp [passesDistanceEpsilon, h]

/-- C7: a candidate piece stops subdividing at a given level iff `maxLevels`
has reached 0, or `minLevels` has reached 0 and both optional criteria pass
(each vacuously when its epsilon is null): the relative `curveEpsilon`
flatness test AND the absolute `distanceEpsilon` deviation test.  When it
stops, the emitted piece is the single chord line; otherwise the piece is
bisected at `t = 0.5` and both halves are processed at the next level. -/
theorem segment_toPiecewiseLinear_stops_iff (q : Quadratic)
    (opts : PiecewiseOptions) (minLevels : ℤ) (maxLevels : ℕ)
    (start end' : Vec2) :
    (pieceSubdivisionStops q opts minLevels maxLevels start end' →
      toPiecewiseLinearSegments q opts minLevels maxLevels start end' =
        [⟨start, end'⟩]) ∧
    (¬pieceSubdivisionStops q opts minLevels maxLevels start end' →
      ∃ left right, q.subdivided (1/2) = [left, right] ∧
        toPiecewiseLinearSegments q opts minLevels maxLevels start end' =
          toPiecewiseLinearSegments left opts (minLevels - 1) (maxLevels - 1)
            start ((opts.pointMap.getD id) (q.positionAt (1/2))) ++
          toPiecewiseLinearSegments right opts (minLevels - 1) (maxLevels - 1)
            ((opts.pointMap.getD id) (q.positionAt (1/2))) end') := by
  have hiff : (maxLevels = 0 ∨ (minLevels ≤ 0 ∧
      passesCurveEpsilon opts start end'
        ((opts.pointMap.getD id) (q.positionAt (1/2))) = true ∧
      passesDistanceEpsilon opts start end'
        ((opts.pointMap.getD id) (q.positionAt (1/2))) = true)) ↔
      pieceSubdivisionStops q opts minLevels maxLevels start end' := by
    rw [pieceSubdivisionStops, passesCurveEpsilon_iff, passesDistanceEpsilon_iff]
  constructor
  · intro hstop
    rw [toPiecewiseLinearSegments, dif_pos (hiff.mpr hstop)]
  · intro hstop
    refine ⟨_, _, rfl, ?_⟩
    rw [toPiecewiseLinearSegments, dif_neg (fun hc => hstop (hiff.mp hc))]
    simp only [Quadratic.subdivided]

/-- Witness for C7: with both epsilons null and `minLevels = 0`, a piece at
`maxLevels = 3` stops immediately with the single chord line. -/
theorem segment_toPiecewiseLinear_stops_iff_witness :
    pieceSubdivisionStops ⟨⟨0, 0⟩, ⟨1, 2⟩, ⟨2, 0⟩⟩ ⟨none, none, none⟩ 0 3
      ⟨0, 0⟩ ⟨2, 0⟩ ∧
    toPiecewiseLinearSegments ⟨⟨0, 0⟩, ⟨1, 2⟩, ⟨2, 0⟩⟩ ⟨none, none, none⟩ 0 3
      ⟨0, 0⟩ ⟨2, 0⟩ = [⟨⟨0, 0⟩, ⟨2, 0⟩⟩] := by
  have hstop : pieceSubdivisionStops ⟨⟨0, 0⟩, ⟨1, 2⟩, ⟨2, 0⟩⟩ ⟨none, none, none⟩
      0 3 ⟨0, 0⟩ ⟨2, 0⟩ := by
    exact Or.inr ⟨le_refl 0, by simp, by simp⟩
  exact ⟨hstop,
    (segment_toPiecewiseLinear_stops_iff ⟨⟨0, 0⟩, ⟨1, 2⟩, ⟨2, 0⟩⟩
      ⟨none, none, none⟩ 0 3 ⟨0, 0⟩ ⟨2, 0⟩).1 hstop⟩

/-- C10: setting a generated property (start, control, end) to the value it
already holds leaves the state — including every cached derived value —
unchanged; setting it to a different value updates the point and clears all
five caches (start/end tangents, both critical parameters, bounds), and each
cleared cache is recomputed from the current points on the next access. -/
theorem quadratic_setter_invalidation (s : QuadraticState) (v : RVec2) :
    (v = s.start → s.setStart v = s) ∧
    (v ≠ s.start →
      s.setStart v = ⟨v, s.control, s.end', none, none, none, none, none⟩) ∧
    (v = s.control → s.setControl v = s) ∧
    (v ≠ s.control →
      s.setControl v = ⟨s.start, v, s.end', none, none, none, none, none⟩) ∧
    (v = s.end' → s.setEnd v = s) ∧
    (v ≠ s.end' →
      s.setEnd v = ⟨s.start, s.control, v, none, none, none, none, none⟩) ∧
    (∀ s' : QuadraticState, s'.cachedStartTangent = none →
      (s'.getStartTangent).1 = QuadraticState.computeStartTangent s') ∧
    (∀ s' : QuadraticState, s'.cachedEndTangent = none →
      (s'.getEndTangent).1 = QuadraticState.computeEndTangent s') ∧
    (∀ s' : QuadraticState, s'.cachedTCriticalX = none →
      (s'.getTCriticalX).1 = QuadraticState.computeTCriticalX s') ∧
    (∀ s' : QuadraticState, s'.cachedTCriticalY = none →
      (s'.getTCriticalY).1 = QuadraticState.computeTCriticalY s') ∧
    (∀ s' : QuadraticState, s'.cachedTCriticalX = none →
      s'.cachedTCriticalY = none → s'.cachedBounds = none →
      (s'.getBounds).1 = QuadraticState.computeBounds s') := by
  refine ⟨?_, ?_, ?_, ?_, ?_, ?_, ?_, ?_, ?_, ?_, ?_⟩
  · intro h
    rw [QuadraticState.setStart, if_pos h]
  · intro h
    rw [QuadraticState.setStart, if_neg h]
    rfl
  · intro h
    rw [QuadraticState.setControl, if_pos h]
  · intro h
    rw [QuadraticState.setControl, if_neg h]
    rfl
  · intro h
    rw [QuadraticState.setEnd, if_pos h]
  · intro h
    rw [QuadraticState.setEnd, if_neg h]
    rfl
  · intro s' h
    rw [QuadraticState.getStartTangent, h]
  · intro s' h
    rw [QuadraticState.getEndTangent, h]
  · intro s' h
    rw [QuadraticState.getTCriticalX, h]
  · intro s' h
    rw [QuadraticState.getTCriticalY, h]
  · intro s' hx hy hb
    rw [QuadraticState.getBounds, hb]
    simp only [QuadraticState.getTCriticalX, QuadraticState.getTCriticalY,
      hx, hy, QuadraticState.computeBounds, QuadraticState.computeTCriticalX,
      QuadraticState.computeTCriticalY]

/-- Witness for C10 at a concrete state: the identity write is a no-op, a
differing write clears all caches. -/
theorem quadratic_setter_invalidation_witness :
    ((⟨0, 0⟩ : RVec2) = (QuadraticState.mk ⟨0, 0⟩ ⟨1, 0⟩ ⟨2, 0⟩
      none none none none none).start ∧
    (QuadraticState.mk ⟨0, 0⟩ ⟨1, 0⟩ ⟨2, 0⟩ none none none none none).setStart
      ⟨0, 0⟩ = QuadraticState.mk ⟨0, 0⟩ ⟨1, 0⟩ ⟨2, 0⟩ none none none none none) ∧
    ((⟨5, 5⟩ : RVec2) ≠ (QuadraticState.mk ⟨0, 0⟩ ⟨1, 0⟩ ⟨2, 0⟩
      none none none none none).start ∧
    (QuadraticState.mk ⟨0, 0⟩ ⟨1, 0⟩ ⟨2, 0⟩ none none none none none).setStart
      ⟨5, 5⟩ = QuadraticState.mk ⟨5, 5⟩ ⟨1, 0⟩ ⟨2, 0⟩ none none none none none) := by
  have hne : (⟨5, 5⟩ : RVec2) ≠ (QuadraticState.mk ⟨0, 0⟩ ⟨1, 0⟩ ⟨2, 0⟩
      none none none none none).start := by
    simp only [RVec2.mk.injEq, ne_eq, not_and]
    intro h
    norm_num at h
  exact ⟨⟨rfl, (quadratic_setter_invalidation _ ⟨0, 0⟩).1 rfl⟩,
    ⟨hne, ((quadratic_setter_invalidation _ ⟨5, 5⟩).2.1 hne)⟩⟩

/-- C6: at a convex-side join with `lineJoin = miter` and interior angle
`theta` between the tangents, the miter tip (line-line intersection of the
two offset rays) is emitted followed by a line to the next offset point
exactly when `1/sin(theta/2) <= miterLimit` and `theta` is not within
`0.00001` of pi; otherwise the join degenerates to a bevel: a single line to
the next offset point. -/
theorem stroke_join_miter (styles : LineStyles)
    (center fromTangent toTangent fromPoint toPoint : RVec2) (theta : ℝ)
    (hmiter : styles.lineJoin = LineJoin.miter)
    (hfrom : fromPoint = center.plus
      ((fromTangent.perpendicular.negated).times (styles.lineWidth / 2)))
    (hto : toPoint = center.plus
      ((toTangent.perpendicular.negated).times (styles.lineWidth / 2)))
    (htheta : theta = fromTangent.angleBetween toTangent.negated)
    (hconvex : 0 < (fromTangent.perpendicular).dot toTangent) :
    (1 / Real.sin (theta / 2) ≤ styles.miterLimit ∧
        theta < Real.pi - 1 / 100000 →
      join styles center fromTangent toTangent =
        [Piece.lineTo (lineLineIntersectionR fromPoint
            (fromPoint.plus fromTangent) toPoint (toPoint.plus toTangent)),
          Piece.lineTo toPoint]) ∧
    (¬(1 / Real.sin (theta / 2) ≤ styles.miterLimit ∧
        theta < Real.pi - 1 / 100000) →
      join styles center fromTangent toTangent = [Piece.lineTo toPoint]) := by
  subst hfrom
  subst hto
  subst htheta
  constructor <;> intro hcond
  · simp only [join, if_pos hconvex, hmiter, if_pos hcond]
  · simp only [join, if_pos hconvex, hmiter, if_neg hcond]

/-- Witness for C6: a right-angle convex join with the default miter limit
emits the miter tip then the offset point. -/
theorem stroke_join_miter_witness :
    join ⟨1, LineCap.butt, LineJoin.miter, 10⟩ ⟨0, 0⟩ ⟨1, 0⟩ ⟨0, -1⟩ =
      [Piece.lineTo (lineLineIntersectionR
          ((⟨0, 0⟩ : RVec2).plus
            ((((⟨1, 0⟩ : RVec2).perpendicular).negated).times (1 / 2)))
          (((⟨0, 0⟩ : RVec2).plus
            ((((⟨1, 0⟩ : RVec2).perpendicular).negated).times (1 / 2))).plus
            ⟨1, 0⟩)
          ((⟨0, 0⟩ : RVec2).plus
            ((((⟨0, -1⟩ : RVec2).perpendicular).negated).times (1 / 2)))
          (((⟨0, 0⟩ : RVec2).plus
            ((((⟨0, -1⟩ : RVec2).perpendicular).negated).times (1 / 2))).plus
            ⟨0, -1⟩)),
        Piece.lineTo ((⟨0, 0⟩ : RVec2).plus
          ((((⟨0, -1⟩ : RVec2).perpendicular).negated).times (1 / 2)))] := by
  have htheta : (⟨1, 0⟩ : RVec2).angleBetween ((⟨0, -1⟩ : RVec2).negated) =
      Real.pi / 2 := by
    have hmag : (⟨1, 0⟩ : RVec2).magnitude = 1 := by
      norm_num [RVec2.magnitude, Real.sqrt_one]
    have hmag2 : (⟨0, 1⟩ : RVec2).magnitude = 1 := by
      norm_num [RVec2.magnitude, Real.sqrt_one]
    simp only [RVec2.angleBetween, RVec2.negated, RVec2.normalized,
      RVec2.dot, neg_neg, neg_zero]
    rw [hmag, hmag2]
    norm_num [clamp, Real.arccos_zero]
  have hconvex : (0 : ℝ) <
      ((⟨1, 0⟩ : RVec2).perpendicular).dot ⟨0, -1⟩ := by
    norm_num [RVec2.perpendicular, RVec2.dot]
  have hsqrt2 : (1 : ℝ) ≤ Real.sqrt 2 := by
    rw [show (1 : ℝ) = Real.sqrt 1 by simp]
    exact Real.sqrt_le_sqrt (by norm_num)
  have hcond : 1 / Real.sin (Real.pi / 2 / 2) ≤
      (⟨1, LineCap.butt, LineJoin.miter, 10⟩ : LineStyles).miterLimit ∧
      Real.pi / 2 < Real.pi - 1 / 100000 := by
    constructor
    · have h4 : Real.pi / 2 / 2 = Real.pi / 4 := by ring
      rw [h4, Real.sin_pi_div_four]
      rw [div_le_iff (by positivity)]
      nlinarith [hsqrt2]
    · nlinarith [Real.pi_gt_three]
  exact (stroke_join_miter ⟨1, LineCap.butt, LineJoin.miter, 10⟩ ⟨0, 0⟩
    ⟨1, 0⟩ ⟨0, -1⟩ _ _ (Real.pi / 2) rfl rfl rfl htheta.symm hconvex).1 hcond

/-- C8 counterexample: the offset discretization of an elliptical arc emits
31 straight line pieces, not 32 — the source sets `quantity = 32` but the
loop `for ( var i = 1; i < quantity; i++ )` runs 31 times. -/
theorem ellipticalArc_offsetTo_not_32 :
    ((EllipticalArc.mk ⟨0, 0⟩ 2 1 0 0 1 false).strokeLeft 1).length = 31 ∧
    ¬(((EllipticalArc.mk ⟨0, 0⟩ 2 1 0 0 1 false).strokeLeft 1).length = 32) := by
  constructor <;>
    simp [EllipticalArc.strokeLeft, EllipticalArc.offsetTo]

/-- C8 (amended): `strokeLeft`/`strokeRight` delegate to
`offsetTo(∓lineWidth/2, ·)`, which discretizes the offset curve into exactly
31 emitted straight-line pieces (sample ratios `i/31`, `i = 1..31`, flipped
when reversed), each endpoint sampled as the arc position plus the
tangent-perpendicular unit vector scaled by the offset radius. -/
theorem ellipticalArc_offsetTo_segments (e : EllipticalArc) (lineWidth : ℝ) :
    e.strokeLeft lineWidth = e.offsetTo (-lineWidth / 2) false ∧
    e.strokeRight lineWidth = e.offsetTo (lineWidth / 2) true ∧
    (∀ (r : ℝ) (reverse : Bool),
      (e.offsetTo r reverse).length = 31 ∧
      ∀ j : ℕ, j < 31 →
        (e.offsetTo r reverse).getD j ⟨0, 0⟩ =
          (e.positionAtAngle (e.angleAt
              (if reverse then 1 - ((j + 1 : ℕ) : ℝ) / 31
                else ((j + 1 : ℕ) : ℝ) / 31))).plus
            (((e.tangentAtAngle (e.angleAt
              (if reverse then 1 - ((j + 1 : ℕ) : ℝ) / 31
                else ((j + 1 : ℕ) : ℝ) / 31))).perpendicular.normalized).times
              r)) := by
  refine ⟨rfl, rfl, fun r reverse => ⟨by simp [EllipticalArc.offsetTo], ?_⟩⟩
  intro j hj
  simp [EllipticalArc.offsetTo, List.getD, List.getElem?_map,
    List.getElem?_range, hj]

/-- Witness for C8's amended theorem at a concrete arc and the first emitted
piece. -/
theorem ellipticalArc_offsetTo_segments_witness :
    ((EllipticalArc.mk ⟨0, 0⟩ 2 1 0 0 1 false).offsetTo 1 false).length = 31 ∧
    ((EllipticalArc.mk ⟨0, 0⟩ 2 1 0 0 1 false).offsetTo 1 false).getD 0 ⟨0, 0⟩ =
      ((EllipticalArc.mk ⟨0, 0⟩ 2 1 0 0 1 false).positionAtAngle
          ((EllipticalArc.mk ⟨0, 0⟩ 2 1 0 0 1 false).angleAt
            (if false then 1 - ((0 + 1 : ℕ) : ℝ) / 31
              else ((0 + 1 : ℕ) : ℝ) / 31))).plus
        ((((EllipticalArc.mk ⟨0, 0⟩ 2 1 0 0 1 false).tangentAtAngle
          ((EllipticalArc.mk ⟨0, 0⟩ 2 1 0 0 1 false).angleAt
            (if false then 1 - ((0 + 1 : ℕ) : ℝ) / 31
              else ((0 + 1 : ℕ) : ℝ) / 31))).perpendicular.normalized).times
          1) :=
  ⟨((ellipticalArc_offsetTo_segments (EllipticalArc.mk ⟨0, 0⟩ 2 1 0 0 1 false)
      1).2.2 1 false).1,
    ((ellipticalArc_offsetTo_segments (EllipticalArc.mk ⟨0, 0⟩ 2 1 0 0 1 false)
      1).2.2 1 false).2 0 (by norm_num)⟩

end Kite
